import Mathlib

/-!
Verification of the cvmfs session-based object-pack upload pipeline
(`cvmfs/session_context.cc`) against its natural-language specification.

The session-level operations (`Initialize`, `NewBucket`, `CommitBucket`,
`Dispatch`, `Finalize`, `WaitForUpload`, `DoUpload`, `UploadLoop`) are
translated from `src/cvmfs/session_context.cc`.  The `ObjectPack` member
functions that the session context calls are not part of the provided
sources, so they are modelled from the specification (each such definition
says so in its doc comment).  Machine integers (`uint64_t`, `int64_t`
counters and sizes) are modelled as `Nat`: the counters only ever grow by
small increments and no wrap-around behaviour is relevant to the claims.
Blocking queue operations and the worker thread are modelled by explicit
fuel / explicit result lists; a `none` result stands for an execution that
blocks forever or aborts (a fired assertion).
-/

namespace Cvmfs

/-- An open (active, still writable) bucket: an identifier plus the bytes
written so far.  Bytes are modelled as a `String`. -/
structure OpenBucket where
  bid : Nat
  contents : String
deriving Repr, DecidableEq

/-- A committed object inside a pack: the bucket identifier together with
the content type, content hash and name recorded at commit time, and the
final contents. -/
structure CommittedObject where
  bid : Nat
  objType : Nat
  objHash : Nat
  name : String
  contents : String
deriving Repr, DecidableEq

/-- Modelled from the spec: `object_pack.cc` is not among the provided
sources.  Per section 3 and 4.1 of the spec, an object pack owns a list of
committed buckets, a list of still-open buckets, and a byte-size ceiling. -/
structure ObjectPack where
  limit : Nat
  committed : List CommittedObject
  open_buckets : List OpenBucket
deriving Repr, DecidableEq

/-- Total committed size of a pack (spec section 3: "total committed
size"; only committed buckets count toward the ceiling). -/
def ObjectPack.size (p : ObjectPack) : Nat :=
  (p.committed.map (fun c => c.contents.length)).sum

/-- Number of committed objects in the pack (`GetNoObjects` in the
sources). -/
def ObjectPack.GetNoObjects (p : ObjectPack) : Nat :=
  p.committed.length

/-- Modelled from the spec (section 4.1): `NewBucket` allocates a fresh
open bucket.  The fresh identifier is supplied by the caller (the session
context allocates identifiers monotonically in the model). -/
def ObjectPack.NewBucket (p : ObjectPack) (bid : Nat) : ObjectPack :=
  { p with open_buckets := p.open_buckets ++ [⟨bid, ""⟩] }

/-- Modelled from the spec (section 4.1): `Write` appends bytes to an open
bucket; `none` when no open bucket with this handle exists in the pack. -/
def ObjectPack.WriteBucket (p : ObjectPack) (bid : Nat) (bytes : String) :
    Option ObjectPack :=
  if p.open_buckets.any (fun b => b.bid == bid) then
    some { p with open_buckets :=
      p.open_buckets.map (fun b =>
        if b.bid == bid then { b with contents := b.contents ++ bytes } else b) }
  else none

/-- Modelled from the spec (section 4.1): `CommitBucket` closes the
bucket, records its type/hash/name and adds its size to the committed
total; it returns `false`, leaving the pack unchanged, when the commit
would push the committed size over the ceiling (or when the handle is not
an open bucket of this pack). -/
def ObjectPack.CommitBucket (p : ObjectPack) (ty hsh bid : Nat)
    (name : String) : Bool × ObjectPack :=
  match p.open_buckets.find? (fun b => b.bid == bid) with
  | none => (false, p)
  | some b =>
    if p.limit < p.size + b.contents.length then (false, p)
    else (true, { p with
      committed := p.committed ++ [⟨bid, ty, hsh, name, b.contents⟩],
      open_buckets := p.open_buckets.filter (fun c => c.bid != bid) })

/-- Modelled from the spec (section 4.1): `TransferBucket` moves a
still-open bucket, with its current partial contents, out of this pack
into another pack, preserving the handle identity. -/
def ObjectPack.TransferBucket (p : ObjectPack) (bid : Nat)
    (dest : ObjectPack) : ObjectPack × ObjectPack :=
  match p.open_buckets.find? (fun b => b.bid == bid) with
  | none => (p, dest)
  | some b =>
    ({ p with open_buckets := p.open_buckets.filter (fun c => c.bid != bid) },
     { dest with open_buckets := dest.open_buckets ++ [b] })

/-- The session context state (`SessionContextBase` members, from
`session_context.cc`).  Field names follow the C++ members.  The
`dispatched_packs` list models the contents of the upload job/result
queues: each `Dispatch` enqueues exactly one job.  `next_bid` models the
allocation of fresh bucket handles. -/
structure SessionState where
  api_url_ : String
  session_token_ : String
  key_id_ : String
  secret_ : String
  drop_lease_ : Bool
  max_pack_size_ : Nat
  active_handles_ : List Nat
  current_pack_ : Option ObjectPack
  objects_dispatched_ : Nat
  bytes_committed_ : Nat
  bytes_dispatched_ : Nat
  dispatched_packs : List ObjectPack
  next_bid : Nat
deriving Repr, DecidableEq

namespace SessionContextBase

/-- `SessionContextBase::Initialize` (session_context.cc:45-92): store the
lease credentials and limits, zero the counters, start with no current
pack and no active handles. -/
def Initialize (api_url session_token key_id secret : String)
    (drop_lease : Bool) (max_pack_size : Nat) : SessionState :=
  { api_url_ := api_url
    session_token_ := session_token
    key_id_ := key_id
    secret_ := secret
    drop_lease_ := drop_lease
    max_pack_size_ := max_pack_size
    active_handles_ := []
    current_pack_ := none
    objects_dispatched_ := 0
    bytes_committed_ := 0
    bytes_dispatched_ := 0
    dispatched_packs := []
    next_bid := 0 }

/-- `SessionContextBase::NewBucket` (session_context.cc:132-140): lazily
allocate the current pack, open a fresh bucket in it and record the handle
in the active set.  Returns the handle and the new state. -/
def NewBucket (s : SessionState) : Nat × SessionState :=
  let p := s.current_pack_.getD (ObjectPack.mk s.max_pack_size_ [] [])
  let hd := s.next_bid
  (hd, { s with
    current_pack_ := some (p.NewBucket hd)
    active_handles_ := s.active_handles_ ++ [hd]
    next_bid := hd + 1 })

/-- A producer write through an open handle: applied to the current pack.
In the sources producers write through the bucket handle directly; the
handle always lives in the current pack. -/
def WriteToBucket (s : SessionState) (bid : Nat) (bytes : String) :
    Option SessionState :=
  match s.current_pack_ with
  | none => none
  | some p =>
    match p.WriteBucket bid bytes with
    | none => none
    | some p2 => some { s with current_pack_ := some p2 }

/-- `SessionContextBase::Dispatch` (session_context.cc:188-198): no-op
without a current pack; otherwise increment the dispatched-job counter,
add the pack size to the dispatched-byte total and enqueue the pack as an
upload job. -/
def Dispatch (s : SessionState) : SessionState :=
  match s.current_pack_ with
  | none => s
  | some p =>
    { s with
      objects_dispatched_ := s.objects_dispatched_ + 1
      bytes_dispatched_ := s.bytes_dispatched_ + p.size
      dispatched_packs := s.dispatched_packs ++ [p] }

/-- `SessionContextBase::NumJobsSubmitted` (session_context.cc:184-186). -/
def NumJobsSubmitted (s : SessionState) : Nat :=
  s.objects_dispatched_

/-- `SessionContextBase::CommitBucket` (session_context.cc:142-182),
with explicit fuel for the recursive retry in the pack-full branch; `none`
means the recursion did not terminate within the given fuel.  Without a
current pack it returns `false`; otherwise it commits into the current
pack and, when the pack is full, rotates: transfer every active handle
into a fresh pack, dispatch the old pack, install the fresh pack and
re-issue the commit (whose boolean result the sources discard). -/
def CommitBucket (fuel : Nat) (s : SessionState) (ty hsh bid : Nat)
    (name : String) (force_dispatch : Bool) : Option (Bool × SessionState) :=
  match fuel with
  | 0 => none
  | fuel + 1 =>
    match s.current_pack_ with
    | none => some (false, s)
    | some pack =>
      let size0 := pack.size
      let r := pack.CommitBucket ty hsh bid name
      if r.1 then
        let s2 := { s with
          current_pack_ := some r.2
          active_handles_ := s.active_handles_.filter (fun x => x != bid)
          bytes_committed_ := s.bytes_committed_ + (r.2.size - size0) }
        if force_dispatch then some (true, { Dispatch s2 with current_pack_ := none })
        else some (true, s2)
      else
        let tp := s.active_handles_.foldl
          (fun pr hd => pr.1.TransferBucket hd pr.2)
          (r.2, ObjectPack.mk s.max_pack_size_ [] [])
        let s3 := { Dispatch { s with current_pack_ := some tp.1 } with
          current_pack_ := some tp.2 }
        match CommitBucket fuel s3 ty hsh bid name false with
        | none => none
        | some rs => some (true, rs.2)

/-- `SessionContextBase::WaitForUpload` (session_context.cc:126-130):
blocks on the one-shot flush signal; it reads and writes only the
`queue_was_flushed_` signal channel and leaves every session field alone,
so on the modelled state it is the identity. -/
def WaitForUpload (s : SessionState) : SessionState := s

/-- The first phase of `SessionContextBase::Finalize`
(session_context.cc:96-103): if a current pack exists and holds at least
one committed object, dispatch it and clear the current-pack slot. -/
def FinalizeDispatchPhase (s : SessionState) : SessionState :=
  match s.current_pack_ with
  | none => s
  | some p =>
    if 0 < p.GetNoObjects then { Dispatch s with current_pack_ := none } else s

/-- The drain loop of `SessionContextBase::Finalize`
(session_context.cc:105-112): while the result queue is non-empty or
fewer results than submitted jobs have been drained, dequeue one result
and AND it into the accumulator.  A dequeue on an empty queue blocks
forever (`none`); fuel bounds the modelled iteration count.  Returns the
accumulated boolean and the number of results drained. -/
def drainLoop (fuel : Nat) (queue : List Bool)
    (jobs_finished num_submitted : Nat) (acc : Bool) : Option (Bool × Nat) :=
  match fuel with
  | 0 => none
  | fuel + 1 =>
    if queue.isEmpty && !(decide (jobs_finished < num_submitted)) then
      some (acc, jobs_finished)
    else
      match queue with
      | [] => none
      | r :: rest => drainLoop fuel rest (jobs_finished + 1) num_submitted (r && acc)

/-- `SessionContextBase::Finalize` (session_context.cc:94-124).  `pending`
is the FIFO list of resolved completion-handle values in the result queue
at drain time; `finalize_derived` is the result of `FinalizeDerived`;
`drop_lease_ok` is the result of `DropLease` (the sources only log its
failure, so it does not influence the returned value).  The result is
`none` when the `assert(active_handles_.empty())` fires or the drain
blocks; otherwise `some (result, lease_drop_invoked, final_state)`. -/
def Finalize (fuel : Nat) (s : SessionState) (pending : List Bool)
    (finalize_derived _drop_lease_ok : Bool) :
    Option (Bool × Bool × SessionState) :=
  if !s.active_handles_.isEmpty then none
  else
    let s1 := FinalizeDispatchPhase s
    match drainLoop fuel pending 0 s1.objects_dispatched_ true with
    | none => none
    | some res =>
      some (finalize_derived && (s1.bytes_committed_ == s1.bytes_dispatched_) && res.1,
            s.drop_lease_, s1)

end SessionContextBase

namespace SessionContext

/-- The exact success reply that `DoUpload` compares the response body
against (session_context.cc:294): the fifteen characters
`\x7b"status":"ok"\x7d`. -/
def okReply : String := "\x7b\"status\":\"ok\"\x7d"

/-- The signing envelope (`json_body`, session_context.cc:240-243):
session token, base64-encoded payload digest and API version, rendered as
a JSON object.  `b64` abstracts the `Base64` helper, which is not among
the provided sources. -/
def jsonBody (b64 : String → String) (session_token payload_digest : String)
    (api_version : Nat) : String :=
  "\x7b\"session_token\" : \"" ++ session_token ++
    "\", \"payload_digest\" : \"" ++ b64 payload_digest ++
    "\", \"api_version\" : \"" ++ toString api_version ++ "\"\x7d"

/-- The observable pieces of the HTTP POST request that `DoUpload`
assembles. -/
structure WireRequest where
  authorization_header : String
  message_size : Nat
  url : String
  post_body : String
  post_body_size : Nat
deriving Repr, DecidableEq

/-- `SessionContext::DoUpload` (session_context.cc:234-300).  `b64`
abstracts `Base64` and `hmac` abstracts `shash::HmacString` (neither
helper is among the provided sources); `payload_digest` is the pack
digest string and `pack_bytes` the serialized pack; `curl_init_ok`,
`curl_code` and `reply` are the outcomes of the transport collaborator
(`curl_easy_init`, `curl_easy_perform` and the response body).  Returns
the request that would be POSTed together with the boolean result
`ok && !ret`: the reply must equal `okReply` exactly and the transport
code must be zero (`CURLE_OK`); a failed `curl_easy_init` returns `false`
before any transport call. -/
def DoUpload (b64 : String → String) (hmac : String → String → String)
    (s : SessionState) (payload_digest : String) (api_version : Nat)
    (pack_bytes : String) (curl_init_ok : Bool) (curl_code : Nat)
    (reply : String) : WireRequest × Bool :=
  let json_body := jsonBody b64 s.session_token_ payload_digest api_version
  let payload_text := json_body ++ b64 pack_bytes
  let req : WireRequest :=
    { authorization_header :=
        "Authorization: " ++ s.key_id_ ++ " " ++ b64 (hmac s.secret_ json_body)
      message_size := json_body.length
      url := s.api_url_ ++ "/payloads"
      post_body := payload_text
      post_body_size := payload_text.length }
  if !curl_init_ok then (req, false)
  else (req, (reply == okReply) && (curl_code == 0))

/-- The completion-handle values written by `SessionContext::UploadLoop`
(session_context.cc:302-321) for a FIFO list of jobs whose `DoUpload`
outcomes are given: the loop runs `ctx->DoUpload(job)` but discards its
return value and executes `job->result->Set(true)` for every job. -/
def UploadLoopResultValues (do_upload_outcomes : List Bool) : List Bool :=
  do_upload_outcomes.map (fun _ => true)

end SessionContext

/-- The lease credential fields of a session state, fixed by
`Initialize`. -/
def creds (s : SessionState) : String × String × String × String :=
  (s.api_url_, s.session_token_, s.key_id_, s.secret_)

/-- The open buckets of the current pack (empty when no pack is open). -/
def openBuckets (s : SessionState) : List OpenBucket :=
  match s.current_pack_ with
  | none => []
  | some p => p.open_buckets

/-- Bucket identifiers of all objects committed into a list of packs, in
pack order. -/
def packsCommittedIds : List ObjectPack → List Nat
  | [] => []
  | p :: rest => p.committed.map CommittedObject.bid ++ packsCommittedIds rest

/-- Bucket identifiers of every object committed during the session so
far: objects in already-dispatched packs followed by objects committed in
the current pack. -/
def committedIds (s : SessionState) : List Nat :=
  packsCommittedIds s.dispatched_packs ++
    (match s.current_pack_ with
     | none => []
     | some p => p.committed.map CommittedObject.bid)

/-- Bucket identifiers of the objects in dispatched packs only. -/
def dispatchedCommittedIds (s : SessionState) : List Nat :=
  packsCommittedIds s.dispatched_packs

/-- The session-state invariant maintained by the pipeline: committed
identifiers are globally distinct; the active-handle set is exactly the
list of open-bucket identifiers of the current pack, without duplicates
and disjoint from all committed identifiers; every identifier in use is
below the fresh-handle counter; dispatched packs hold no open buckets. -/
def Inv (s : SessionState) : Prop :=
  (committedIds s).Nodup ∧
  s.active_handles_ = (openBuckets s).map OpenBucket.bid ∧
  s.active_handles_.Nodup ∧
  (∀ b ∈ s.active_handles_, b ∉ committedIds s) ∧
  (∀ b ∈ s.active_handles_, b < s.next_bid) ∧
  (∀ b ∈ committedIds s, b < s.next_bid) ∧
  (∀ p ∈ s.dispatched_packs, p.open_buckets = [])

instance (s : SessionState) : Decidable (Inv s) := by
  unfold Inv; infer_instance

/-- Producer-side session operations (the commit retry uses fuel 2: the
single-level rotation retry the spec describes). -/
inductive SessionOp where
  | newBucket : SessionOp
  | writeOp (bid : Nat) (bytes : String) : SessionOp
  | commitOp (ty hsh bid : Nat) (name : String) : SessionOp
deriving Repr, DecidableEq

/-- One producer step; `none` when a write misses or a commit fails or
does not terminate within the single-level retry. -/
def runOp (s : SessionState) (op : SessionOp) : Option SessionState :=
  match op with
  | .newBucket => some (SessionContextBase.NewBucket s).2
  | .writeOp bid bytes => SessionContextBase.WriteToBucket s bid bytes
  | .commitOp ty hsh bid name =>
    match SessionContextBase.CommitBucket 2 s ty hsh bid name false with
    | some (true, s2) => some s2
    | _ => none

/-- Run a list of producer operations in order. -/
def runOps (ops : List SessionOp) (s : SessionState) : Option SessionState :=
  match ops with
  | [] => some s
  | op :: rest =>
    match runOp s op with
    | none => none
    | some s2 => runOps rest s2

/-! Concrete states used to evaluate the model at specific inputs. -/

/-- A freshly initialized session: ceiling 100 bytes. -/
def cInit : SessionState :=
  SessionContextBase.Initialize "http://gw" "tok" "key" "sec" true 100

/-- `cInit` after opening one bucket (handle 0). -/
def cOpen : SessionState := (SessionContextBase.NewBucket cInit).2

/-- `cOpen` after writing two bytes into bucket 0. -/
def cWrite : SessionState :=
  (SessionContextBase.WriteToBucket cOpen 0 "ab").getD cInit

/-- `cWrite` after committing bucket 0. -/
def cCommit : SessionState :=
  match SessionContextBase.CommitBucket 2 cWrite 0 7 0 "n" false with
  | some r => r.2
  | none => cInit

/-- `cInit` after both the Finalize dispatch phase would find nothing and
two upload jobs have been dispatched (counters only; accounting
balanced). -/
def cJobs2 : SessionState := { cInit with objects_dispatched_ := 2 }

/-- A session with one dispatched job and balanced byte accounting. -/
def cJobs1 : SessionState :=
  { cInit with objects_dispatched_ := 1, bytes_committed_ := 3, bytes_dispatched_ := 3 }

/-- A session with one dispatched job and an accounting mismatch. -/
def cMismatch : SessionState :=
  { cInit with objects_dispatched_ := 1, bytes_committed_ := 1, bytes_dispatched_ := 0 }

/-- A session that still has an active (uncommitted) handle. -/
def cActive : SessionState := { cInit with active_handles_ := [0] }

/-- Ceiling 2, one open bucket holding three bytes: a single commit that
can never fit in any pack. -/
def cOversize : SessionState :=
  (SessionContextBase.WriteToBucket
    (SessionContextBase.NewBucket
      (SessionContextBase.Initialize "http://gw" "tok" "key" "sec" true 2)).2
    0 "aaa").getD cInit

/-- A small producer trace: open, write, commit. -/
def c3ops : List SessionOp := [.newBucket, .writeOp 0 "abc", .commitOp 1 7 0 "x"]

/-- The state the trace `c3ops` reaches from `cInit`. -/
def c3s : SessionState := (runOps c3ops cInit).getD cInit

/-! ## Helper lemmas -/

/-- Whenever `SessionContextBase::CommitBucket` returns, its boolean
result records exactly whether a current pack was open at the call: the
pack-full rotation branch and the fits branch both return `true`. -/
lemma commitBucket_result_isSome (fuel : Nat) :
    ∀ (s : SessionState) (ty hsh bid : Nat) (name : String) (force b : Bool)
      (s2 : SessionState),
      SessionContextBase.CommitBucket fuel s ty hsh bid name force = some (b, s2) →
      b = s.current_pack_.isSome := by
  induction fuel with
  | zero =>
    intro s ty hsh bid name force b s2 h
    simp [SessionContextBase.CommitBucket] at h
  | succ n ih =>
    intro s ty hsh bid name force b s2 h
    unfold SessionContextBase.CommitBucket at h
    cases hp : s.current_pack_ with
    | none =>
      rw [hp] at h
      simp only [Option.some.injEq, Prod.mk.injEq] at h
      simp [hp, ← h.1]
    | some pack =>
      rw [hp] at h
      simp only [Option.isSome_some]
      by_cases hc : (pack.CommitBucket ty hsh bid name).1 = true
      · simp only [hc, if_true] at h
        cases force with
        | true => simp only [if_true] at h; exact (Prod.mk.injEq _ _ _ _ ▸ (Option.some.inj h)).1.symm
        | false => simp only [Bool.false_eq_true, if_false] at h; exact (Prod.mk.injEq _ _ _ _ ▸ (Option.some.inj h)).1.symm
      · rw [Bool.not_eq_true] at hc
        simp only [hc, Bool.false_eq_true, if_false] at h
        cases hrec : SessionContextBase.CommitBucket n
            { SessionContextBase.Dispatch
                { s with current_pack_ := some (s.active_handles_.foldl
                    (fun pr hd => pr.1.TransferBucket hd pr.2)
                    ((pack.CommitBucket ty hsh bid name).2,
                      ObjectPack.mk s.max_pack_size_ [] [])).1 } with
              current_pack_ := some (s.active_handles_.foldl
                (fun pr hd => pr.1.TransferBucket hd pr.2)
                ((pack.CommitBucket ty hsh bid name).2,
                  ObjectPack.mk s.max_pack_size_ [] [])).2 }
            ty hsh bid name false with
        | none => rw [hrec] at h; simp at h
        | some rs =>
          rw [hrec] at h
          exact (Prod.mk.injEq _ _ _ _ ▸ (Option.some.inj h)).1.symm

/-! ## Claims -/

/-- C5: `DoUpload` returns `true` iff the transport layer initialized and
did not fail (`curl_easy_init` succeeded and `curl_easy_perform` returned
zero) and the response body equals the literal `okReply` exactly; the
same body with a trailing space yields `false`. -/
theorem claim5_doUpload_strict_success :
    ∀ (b64 : String → String) (hmac : String → String → String)
      (s : SessionState) (d : String) (v : Nat) (pb : String)
      (init_ok : Bool) (code : Nat) (reply : String),
      ((SessionContext.DoUpload b64 hmac s d v pb init_ok code reply).2 = true ↔
        (init_ok = true ∧ code = 0 ∧ reply = SessionContext.okReply)) ∧
      (SessionContext.DoUpload b64 hmac s d v pb true code
        (SessionContext.okReply ++ " ")).2 = false := by
  intro b64 hmac s d v pb init_ok code reply
  constructor
  · cases init_ok with
    | false => simp [SessionContext.DoUpload]
    | true =>
      simp only [SessionContext.DoUpload, Bool.not_true, Bool.false_eq_true, if_false,
        Bool.and_eq_true, beq_iff_eq, true_and]
      tauto
  · simp only [SessionContext.DoUpload, Bool.not_true, Bool.false_eq_true, if_false]
    have : (SessionContext.okReply ++ " " == SessionContext.okReply) = false := by decide
    simp [this]

/-- Witness for C5 at a concrete successful transport. -/
theorem claim5_witness :
    (SessionContext.DoUpload (fun x => x) (fun _ y => y) cInit "d" 1 "p" true 0
      SessionContext.okReply).2 = true :=
  (claim5_doUpload_strict_success (fun x => x) (fun _ y => y) cInit "d" 1 "p" true 0
    SessionContext.okReply).1.mpr ⟨rfl, rfl, rfl⟩

/-- C6: the Authorization header produced by `DoUpload` is the key id, a
space and the base64 HMAC of the envelope under the session secret, and
the Message-Size header is the length of the envelope (the JSON body),
strictly smaller than the full POST payload whenever the base64 pack part
is non-empty. -/
theorem claim6_auth_header_and_message_size :
    ∀ (b64 : String → String) (hmac : String → String → String)
      (s : SessionState) (d : String) (v : Nat) (pb : String)
      (init_ok : Bool) (code : Nat) (reply : String),
      ((SessionContext.DoUpload b64 hmac s d v pb init_ok code reply).1.authorization_header =
        "Authorization: " ++ s.key_id_ ++ " " ++
          b64 (hmac s.secret_ (SessionContext.jsonBody b64 s.session_token_ d v))) ∧
      ((SessionContext.DoUpload b64 hmac s d v pb init_ok code reply).1.message_size =
        (SessionContext.jsonBody b64 s.session_token_ d v).length) ∧
      (0 < (b64 pb).length →
        (SessionContext.DoUpload b64 hmac s d v pb init_ok code reply).1.message_size <
          (SessionContext.DoUpload b64 hmac s d v pb init_ok code reply).1.post_body_size) := by
  intro b64 hmac s d v pb init_ok code reply
  refine ⟨?_, ?_, ?_⟩
  · cases init_ok <;> rfl
  · cases init_ok <;> rfl
  · intro hlen
    have hbody : (SessionContext.DoUpload b64 hmac s d v pb init_ok code reply).1.post_body_size =
        (SessionContext.jsonBody b64 s.session_token_ d v ++ b64 pb).length := by
      cases init_ok <;> rfl
    have hms : (SessionContext.DoUpload b64 hmac s d v pb init_ok code reply).1.message_size =
        (SessionContext.jsonBody b64 s.session_token_ d v).length := by
      cases init_ok <;> rfl
    rw [hbody, hms, String.length_append]
    omega

/-- Witness for C6 at a concrete input with a non-empty pack payload. -/
theorem claim6_witness :
    (SessionContext.DoUpload (fun x => x) (fun _ y => y) cInit "d" 1 "p" true 0 "").1.message_size <
      (SessionContext.DoUpload (fun x => x) (fun _ y => y) cInit "d" 1 "p" true 0 "").1.post_body_size :=
  (claim6_auth_header_and_message_size (fun x => x) (fun _ y => y) cInit "d" 1 "p" true 0 "").2.2
    (by decide)

/-- C7: the POST body assembled by `DoUpload` is exactly the envelope
(JSON body) immediately followed by the base64-encoded pack bytes, with
no separator, and the declared POST size is the length of that
concatenation. -/
theorem claim7_post_body_is_envelope_then_pack :
    ∀ (b64 : String → String) (hmac : String → String → String)
      (s : SessionState) (d : String) (v : Nat) (pb : String)
      (init_ok : Bool) (code : Nat) (reply : String),
      ((SessionContext.DoUpload b64 hmac s d v pb init_ok code reply).1.post_body =
        SessionContext.jsonBody b64 s.session_token_ d v ++ b64 pb) ∧
      ((SessionContext.DoUpload b64 hmac s d v pb init_ok code reply).1.post_body_size =
        (SessionContext.jsonBody b64 s.session_token_ d v ++ b64 pb).length) := by
  intro b64 hmac s d v pb init_ok code reply
  exact ⟨by cases init_ok <;> rfl, by cases init_ok <;> rfl⟩

/-- C1 (code bug): `UploadLoop` calls `DoUpload` but discards its return
value and sets every job's completion handle to `true`
(session_context.cc:309-310).  At the failing input — two dispatched
jobs, the first with a transport failure (`curl_easy_perform` code 6,
empty reply) — `DoUpload` evaluates to `false`, yet the completion
handles both read `true`, and `Finalize` consequently returns success
(while still invoking the lease drop), contradicting the claim that a
single transport failure makes `Finalize` return `false`. -/
theorem claim1_upload_result_discarded :
    (SessionContext.DoUpload (fun x => x) (fun _ y => y) cJobs2 "d" 1 "p" true 6 "").2 = false ∧
    SessionContext.UploadLoopResultValues
        [(SessionContext.DoUpload (fun x => x) (fun _ y => y) cJobs2 "d" 1 "p" true 6 "").2,
         (SessionContext.DoUpload (fun x => x) (fun _ y => y) cJobs2 "d" 1 "p" true 0
            SessionContext.okReply).2] = [true, true] ∧
    SessionContextBase.Finalize 3 cJobs2 [true, true] true true = some (true, true, cJobs2) := by
  refine ⟨by decide, by decide, by decide⟩

/-- C9: whenever the session-level `CommitBucket` returns, its boolean
result equals the presence of a current pack at the call — `true` in the
fits case and in the rotation case alike, `false` exactly when no pack
was open; a full pack is never surfaced as a `false` return. -/
theorem claim9_commit_result_is_pack_presence :
    ∀ (fuel : Nat) (s : SessionState) (ty hsh bid : Nat) (name : String)
      (force b : Bool) (s2 : SessionState),
      SessionContextBase.CommitBucket fuel s ty hsh bid name force = some (b, s2) →
      b = s.current_pack_.isSome := by
  intro fuel s ty hsh bid name force b s2 h
  exact commitBucket_result_isSome fuel s ty hsh bid name force b s2 h

/-- Witness for C9: committing without any open pack returns `false`. -/
theorem claim9_witness : false = cInit.current_pack_.isSome :=
  claim9_commit_result_is_pack_presence 1 cInit 0 0 0 "n" false false cInit (by decide)

/-- The drain loop consumes a queue holding exactly the outstanding
results and returns after draining all of them. -/
lemma drainLoop_run (q : List Bool) :
    ∀ (jf : Nat) (acc : Bool),
      SessionContextBase.drainLoop (q.length + 1) q jf (jf + q.length) acc =
        some (q.foldl (fun a r => r && a) acc, jf + q.length) := by
  induction q with
  | nil =>
    intro jf acc
    simp [SessionContextBase.drainLoop]
  | cons r rest ih =>
    intro jf acc
    have harith : jf + (rest.length + 1) = (jf + 1) + rest.length := by omega
    simp only [List.length_cons, harith]
    unfold SessionContextBase.drainLoop
    simp only [List.isEmpty_cons, Bool.false_and, Bool.false_eq_true, if_false,
      List.foldl_cons]
    exact ih (jf + 1) (r && acc)

/-- Folding conjunction over the drained results equals `all`. -/
lemma foldl_and_eq_all (q : List Bool) :
    ∀ acc : Bool, q.foldl (fun a r => r && a) acc = (acc && q.all id) := by
  induction q with
  | nil => intro acc; simp
  | cons r rest ih =>
    intro acc
    simp only [List.foldl_cons, List.all_cons, ih (r && acc), id]
    cases r <;> cases acc <;> simp

/-- Evaluation of `Finalize` when the active set is empty and the result
queue holds exactly one resolved result per submitted job. -/
lemma finalize_run (s : SessionState) (pending : List Bool)
    (fd dlo : Bool) (hact : s.active_handles_ = [])
    (hlen : pending.length = (SessionContextBase.FinalizeDispatchPhase s).objects_dispatched_) :
    SessionContextBase.Finalize (pending.length + 1) s pending fd dlo =
      some (fd && ((SessionContextBase.FinalizeDispatchPhase s).bytes_committed_ ==
              (SessionContextBase.FinalizeDispatchPhase s).bytes_dispatched_) && pending.all id,
            s.drop_lease_, SessionContextBase.FinalizeDispatchPhase s) := by
  unfold SessionContextBase.Finalize
  rw [hact]
  simp only [List.isEmpty_nil, Bool.not_true, Bool.false_eq_true, if_false]
  have hdrain := drainLoop_run pending 0 true
  simp only [Nat.zero_add] at hdrain
  rw [← hlen, hdrain]
  simp only [foldl_and_eq_all, Bool.true_and]

/-- C2: with the active set empty and the result queue holding exactly
one resolved result per submitted job, `Finalize` drains exactly that
many results and returns the conjunction of `FinalizeDerived`, the
bytes-committed/bytes-dispatched accounting check, and all drained
results; an accounting mismatch alone forces a `false` return. -/
theorem claim2_finalize_accounting_and_drain :
    ∀ (s : SessionState) (pending : List Bool) (fd dlo : Bool),
      s.active_handles_ = [] →
      pending.length = (SessionContextBase.FinalizeDispatchPhase s).objects_dispatched_ →
      (SessionContextBase.Finalize (pending.length + 1) s pending fd dlo =
        some (fd && ((SessionContextBase.FinalizeDispatchPhase s).bytes_committed_ ==
                (SessionContextBase.FinalizeDispatchPhase s).bytes_dispatched_) && pending.all id,
              s.drop_lease_, SessionContextBase.FinalizeDispatchPhase s)) ∧
      (SessionContextBase.drainLoop (pending.length + 1) pending 0
          (SessionContextBase.FinalizeDispatchPhase s).objects_dispatched_ true =
        some (pending.all id, pending.length)) ∧
      ((SessionContextBase.FinalizeDispatchPhase s).bytes_committed_ ≠
          (SessionContextBase.FinalizeDispatchPhase s).bytes_dispatched_ →
        SessionContextBase.Finalize (pending.length + 1) s pending fd dlo =
          some (false, s.drop_lease_, SessionContextBase.FinalizeDispatchPhase s)) := by
  intro s pending fd dlo hact hlen
  refine ⟨finalize_run s pending fd dlo hact hlen, ?_, ?_⟩
  · have hdrain := drainLoop_run pending 0 true
    simp only [Nat.zero_add] at hdrain
    rw [← hlen, hdrain]
    simp only [foldl_and_eq_all, Bool.true_and]
  · intro hne
    have hbeq : ((SessionContextBase.FinalizeDispatchPhase s).bytes_committed_ ==
        (SessionContextBase.FinalizeDispatchPhase s).bytes_dispatched_) = false := by
      simpa using hne
    rw [finalize_run s pending fd dlo hact hlen, hbeq]
    simp

/-- Witness for C2: a one-job session with balanced accounting finalizes
successfully, and one with a mismatch finalizes with `false`. -/
theorem claim2_witness :
    (SessionContextBase.Finalize 2 cJobs1 [true] true true =
      some (true && ((SessionContextBase.FinalizeDispatchPhase cJobs1).bytes_committed_ ==
              (SessionContextBase.FinalizeDispatchPhase cJobs1).bytes_dispatched_) && [true].all id,
            cJobs1.drop_lease_, SessionContextBase.FinalizeDispatchPhase cJobs1)) ∧
    (SessionContextBase.Finalize 2 cMismatch [true] true true =
      some (false, cMismatch.drop_lease_, SessionContextBase.FinalizeDispatchPhase cMismatch)) :=
  ⟨(claim2_finalize_accounting_and_drain cJobs1 [true] true true rfl (by decide)).1,
   (claim2_finalize_accounting_and_drain cMismatch [true] true true rfl (by decide)).2.2
     (by decide)⟩

/-- C8: `Finalize` requires the active-handle set to be empty: with any
active (uncommitted) handle outstanding the assertion fires (modelled as
the fatal `none`); under the precondition — and with the result queue
consistent with the submitted-job count — the assertion never fires and
`Finalize` returns a value. -/
theorem claim8_finalize_requires_no_active_handles :
    ∀ (s : SessionState) (pending : List Bool) (fd dlo : Bool) (fuel : Nat),
      (s.active_handles_ ≠ [] →
        SessionContextBase.Finalize fuel s pending fd dlo = none) ∧
      (s.active_handles_ = [] →
        pending.length = (SessionContextBase.FinalizeDispatchPhase s).objects_dispatched_ →
        (SessionContextBase.Finalize (pending.length + 1) s pending fd dlo).isSome = true) := by
  intro s pending fd dlo fuel
  constructor
  · intro hne
    unfold SessionContextBase.Finalize
    cases hae : s.active_handles_ with
    | nil => exact absurd hae hne
    | cons a rest => simp
  · intro hact hlen
    rw [finalize_run s pending fd dlo hact hlen]
    rfl

/-- Witness for C8: finalizing with an outstanding handle is fatal;
finalizing the same session without it returns a value. -/
theorem claim8_witness :
    SessionContextBase.Finalize 1 cActive [] true true = none ∧
    (SessionContextBase.Finalize 1 cInit [] true true).isSome = true :=
  ⟨(claim8_finalize_requires_no_active_handles cActive [] true true 1).1 (by decide),
   (claim8_finalize_requires_no_active_handles cInit [] true true 1).2 rfl (by decide)⟩

/-- `Dispatch` never touches the lease credentials. -/
lemma dispatch_creds (s : SessionState) :
    creds (SessionContextBase.Dispatch s) = creds s := by
  unfold SessionContextBase.Dispatch
  cases s.current_pack_ <;> rfl

/-- The dispatch phase of `Finalize` never touches the lease
credentials. -/
lemma finalizeDispatchPhase_creds (s : SessionState) :
    creds (SessionContextBase.FinalizeDispatchPhase s) = creds s := by
  unfold SessionContextBase.FinalizeDispatchPhase
  cases hp : s.current_pack_ with
  | none => rfl
  | some p =>
    by_cases hn : 0 < p.GetNoObjects
    · simp only [hn, if_true]
      have : creds { SessionContextBase.Dispatch s with current_pack_ := none } =
          creds (SessionContextBase.Dispatch s) := rfl
      rw [this, dispatch_creds]
    · simp [hn]

/-- `CommitBucket` never touches the lease credentials, whichever branch
it takes. -/
lemma commitBucket_creds (fuel : Nat) :
    ∀ (s : SessionState) (ty hsh bid : Nat) (name : String) (force b : Bool)
      (s2 : SessionState),
      SessionContextBase.CommitBucket fuel s ty hsh bid name force = some (b, s2) →
      creds s2 = creds s := by
  induction fuel with
  | zero =>
    intro s ty hsh bid name force b s2 h
    simp [SessionContextBase.CommitBucket] at h
  | succ n ih =>
    intro s ty hsh bid name force b s2 h
    unfold SessionContextBase.CommitBucket at h
    cases hp : s.current_pack_ with
    | none =>
      rw [hp] at h
      obtain ⟨hb, hs⟩ := Prod.mk.injEq _ _ _ _ ▸ Option.some.inj h
      rw [← hs]
    | some pack =>
      rw [hp] at h
      by_cases hc : (pack.CommitBucket ty hsh bid name).1 = true
      · simp only [hc, if_true] at h
        cases force with
        | true =>
          simp only [if_true] at h
          obtain ⟨hb, hs⟩ := Prod.mk.injEq _ _ _ _ ▸ Option.some.inj h
          rw [← hs]
          simp [creds, SessionContextBase.Dispatch]
        | false =>
          simp only [Bool.false_eq_true, if_false] at h
          obtain ⟨hb, hs⟩ := Prod.mk.injEq _ _ _ _ ▸ Option.some.inj h
          rw [← hs]
          exact rfl
      · rw [Bool.not_eq_true] at hc
        simp only [hc, Bool.false_eq_true, if_false] at h
        cases hrec : SessionContextBase.CommitBucket n
            { SessionContextBase.Dispatch
                { s with current_pack_ := some (s.active_handles_.foldl
                    (fun pr hd => pr.1.TransferBucket hd pr.2)
                    ((pack.CommitBucket ty hsh bid name).2,
                      ObjectPack.mk s.max_pack_size_ [] [])).1 } with
              current_pack_ := some (s.active_handles_.foldl
                (fun pr hd => pr.1.TransferBucket hd pr.2)
                ((pack.CommitBucket ty hsh bid name).2,
                  ObjectPack.mk s.max_pack_size_ [] [])).2 }
            ty hsh bid name false with
        | none => rw [hrec] at h; simp at h
        | some rs =>
          rw [hrec] at h
          obtain ⟨hb, hs⟩ := Prod.mk.injEq _ _ _ _ ▸ Option.some.inj h
          have hmid := ih _ ty hsh bid name false rs.1 rs.2 (by rw [hrec])
          rw [← hs, hmid]
          simp [creds, SessionContextBase.Dispatch]

/-- C10: the lease credentials (`api_url_`, `session_token_`, `key_id_`,
`secret_`) are exactly the values passed to `Initialize` and are left
untouched by `NewBucket`, bucket writes, `CommitBucket` (any branch),
`Dispatch`, `WaitForUpload` and `Finalize`; the worker's `DoUpload` and
`UploadLoop` read but never write session state in the model (their
types return no state). -/
theorem claim10_lease_credentials_immutable :
    ∀ (u t k sec : String) (dl : Bool) (mx : Nat) (s s2 s3 s4 : SessionState)
      (bid ty hsh fuel fl : Nat) (bytes name : String)
      (force fd dlo r1 r2 ld : Bool) (pending : List Bool),
      (creds (SessionContextBase.Initialize u t k sec dl mx) = (u, t, k, sec)) ∧
      (creds (SessionContextBase.NewBucket s).2 = creds s) ∧
      (SessionContextBase.WriteToBucket s bid bytes = some s2 → creds s2 = creds s) ∧
      (SessionContextBase.CommitBucket fuel s ty hsh bid name force = some (r1, s3) →
        creds s3 = creds s) ∧
      (creds (SessionContextBase.Dispatch s) = creds s) ∧
      (creds (SessionContextBase.WaitForUpload s) = creds s) ∧
      (SessionContextBase.Finalize fl s pending fd dlo = some (r2, ld, s4) →
        creds s4 = creds s) := by
  intro u t k sec dl mx s s2 s3 s4 bid ty hsh fuel fl bytes name force fd dlo r1 r2 ld pending
  refine ⟨rfl, rfl, ?_, ?_, dispatch_creds s, rfl, ?_⟩
  · intro h
    unfold SessionContextBase.WriteToBucket at h
    split at h
    · simp at h
    · split at h
      · simp at h
      · rw [← Option.some.inj h]
        exact rfl
  · exact commitBucket_creds fuel s ty hsh bid name force r1 s3
  · intro h
    unfold SessionContextBase.Finalize at h
    by_cases hae : s.active_handles_.isEmpty = true
    · rw [hae] at h
      simp only [Bool.not_true, Bool.false_eq_true, if_false] at h
      cases hd : SessionContextBase.drainLoop fl pending 0
          (SessionContextBase.FinalizeDispatchPhase s).objects_dispatched_ true with
      | none => rw [hd] at h; simp at h
      | some res =>
        rw [hd] at h
        have hs4 : SessionContextBase.FinalizeDispatchPhase s = s4 :=
          (Prod.mk.injEq _ _ _ _ ▸ (Prod.mk.injEq _ _ _ _ ▸ Option.some.inj h).2).2
        rw [← hs4, finalizeDispatchPhase_creds]
    · rw [Bool.not_eq_true] at hae
      rw [hae] at h
      simp at h

/-- Witness for C10: the write, commit and finalize frame conditions at
concrete inputs. -/
theorem claim10_witness :
    creds cWrite = creds cOpen ∧ creds cCommit = creds cWrite ∧
    creds cJobs2 = creds cJobs2 :=
  ⟨(claim10_lease_credentials_immutable "u" "t" "k" "s" true 100 cOpen cWrite cInit cInit
      0 0 0 2 3 "ab" "n" false true true true true true []).2.2.1 (by decide),
   (claim10_lease_credentials_immutable "u" "t" "k" "s" true 100 cWrite cInit cCommit cInit
      0 0 7 2 3 "ab" "n" false true true true true true []).2.2.2.1 (by decide),
   (claim10_lease_credentials_immutable "u" "t" "k" "s" true 100 cJobs2 cInit cInit cJobs2
      0 0 0 2 3 "ab" "n" false true true true true true [true, true]).2.2.2.2.2.2 (by decide)⟩

/-! Helper lemmas for the rotation/exactly-once development (C3, C4). -/

/-- `packsCommittedIds` distributes over pack-list concatenation. -/
lemma packsCommittedIds_append (l1 l2 : List ObjectPack) :
    packsCommittedIds (l1 ++ l2) = packsCommittedIds l1 ++ packsCommittedIds l2 := by
  induction l1 with
  | nil => simp [packsCommittedIds]
  | cons p rest ih => simp [packsCommittedIds, ih]

/-- Filtering open buckets by handle commutes with taking handle ids. -/
lemma map_bid_filter (l : List OpenBucket) (bid : Nat) :
    (l.filter (fun c => c.bid != bid)).map OpenBucket.bid =
      (l.map OpenBucket.bid).filter (fun x => x != bid) := by
  induction l with
  | nil => rfl
  | cons c rest ih =>
    by_cases hc : (c.bid != bid) = true
    · simp [List.filter_cons, hc, ih]
    · rw [Bool.not_eq_true] at hc
      simp [List.filter_cons, hc, ih]

/-- A write updates contents only: the handle ids of the open buckets are
unchanged. -/
lemma map_bid_write (l : List OpenBucket) (bid : Nat) (bytes : String) :
    (l.map (fun b =>
      if b.bid == bid then { b with contents := b.contents ++ bytes } else b)).map
        OpenBucket.bid = l.map OpenBucket.bid := by
  induction l with
  | nil => rfl
  | cons c rest ih =>
    simp only [List.map_cons, ih, List.cons.injEq, and_true]
    by_cases hc : (c.bid == bid) = true
    · rw [if_pos hc]
    · rw [if_neg hc]

/-- With distinct handle ids, looking an open bucket up by its own id
finds exactly that bucket. -/
lemma find?_bid_of_mem (l : List OpenBucket) :
    ∀ ob : OpenBucket, (l.map OpenBucket.bid).Nodup → ob ∈ l →
      l.find? (fun b => b.bid == ob.bid) = some ob := by
  induction l with
  | nil => intro ob _ hm; cases hm
  | cons c rest ih =>
    intro ob hnd hm
    rw [List.map_cons, List.nodup_cons] at hnd
    cases hm with
    | head => simp [List.find?_cons]
    | tail _ hrest =>
      have hne : (c.bid == ob.bid) = false := by
        rw [beq_eq_false_iff_ne]
        intro hcontra
        exact hnd.1 (hcontra ▸ List.mem_map_of_mem OpenBucket.bid hrest)
      rw [List.find?_cons, hne]
      exact ih ob hnd.2 hrest

/-- Characterization of a successful (fits-case) pack-level commit. -/
lemma pack_commit_true (p : ObjectPack) (ty hsh bid : Nat) (name : String)
    (h : (p.CommitBucket ty hsh bid name).1 = true) :
    ∃ ob, p.open_buckets.find? (fun b => b.bid == bid) = some ob ∧ ob.bid = bid ∧
      p.size + ob.contents.length ≤ p.limit ∧
      (p.CommitBucket ty hsh bid name).2 =
        ⟨p.limit, p.committed ++ [⟨bid, ty, hsh, name, ob.contents⟩],
         p.open_buckets.filter (fun c => c.bid != bid)⟩ := by
  unfold ObjectPack.CommitBucket at h ⊢
  cases hf : p.open_buckets.find? (fun b => b.bid == bid) with
  | none => simp only [hf] at h; simp at h
  | some b =>
    simp only [hf] at h ⊢
    by_cases hlim : p.limit < p.size + b.contents.length
    · rw [if_pos hlim] at h; simp at h
    · rw [if_neg hlim] at h ⊢
      refine ⟨b, rfl, ?_, Nat.le_of_not_lt hlim, rfl⟩
      have hpred := List.find?_some hf
      exact eq_of_beq hpred

/-- A failed pack-level commit leaves the pack unchanged. -/
lemma pack_commit_false (p : ObjectPack) (ty hsh bid : Nat) (name : String)
    (h : (p.CommitBucket ty hsh bid name).1 = false) :
    (p.CommitBucket ty hsh bid name).2 = p := by
  unfold ObjectPack.CommitBucket at h ⊢
  cases hf : p.open_buckets.find? (fun b => b.bid == bid) with
  | none => simp only [hf]
  | some b =>
    simp only [hf] at h ⊢
    by_cases hlim : p.limit < p.size + b.contents.length
    · rw [if_pos hlim]
    · rw [if_neg hlim] at h; simp at h

/-- Folding `TransferBucket` over the (distinct) handles of all open
buckets empties the source pack's open list and appends every open
bucket, intact and in order, to the destination pack. -/
lemma transfer_fold (obs : List OpenBucket) :
    ∀ (p dest : ObjectPack), p.open_buckets = obs →
      (obs.map OpenBucket.bid).Nodup →
      List.foldl (fun pr hd => pr.1.TransferBucket hd pr.2) (p, dest)
          (obs.map OpenBucket.bid) =
        ({ p with open_buckets := [] },
         { dest with open_buckets := dest.open_buckets ++ obs }) := by
  induction obs with
  | nil =>
    intro p dest hp _
    cases p with
    | mk lim cL oB =>
      simp only [List.map_nil, List.foldl_nil, List.append_nil]
      simp only at hp
      rw [hp]
  | cons b rest ih =>
    intro p dest hp hnd
    rw [List.map_cons, List.nodup_cons] at hnd
    rw [List.map_cons]
    simp only [List.foldl_cons]
    have hstep : p.TransferBucket b.bid dest =
        ({ p with open_buckets := rest },
         { dest with open_buckets := dest.open_buckets ++ [b] }) := by
      unfold ObjectPack.TransferBucket
      have hfind : (b :: rest).find? (fun c => c.bid == b.bid) = some b := by
        simp [List.find?_cons]
      have hfilter : (b :: rest).filter (fun c => c.bid != b.bid) = rest := by
        rw [List.filter_cons]
        simp only [bne_self_eq_false, Bool.false_eq_true, if_false]
        rw [List.filter_eq_self]
        intro c hc
        rw [bne_iff_ne]
        intro hcontra
        exact hnd.1 (hcontra ▸ List.mem_map_of_mem OpenBucket.bid hc)
      simp only [hp, hfind, hfilter]
    rw [hstep]
    rw [ih { p with open_buckets := rest } { dest with open_buckets := dest.open_buckets ++ [b] }
      rfl hnd.2]
    simp [List.append_assoc]

/-- The session invariant holds after `Initialize`. -/
lemma initialize_inv (u t k sec : String) (dl : Bool) (mx : Nat) :
    Inv (SessionContextBase.Initialize u t k sec dl mx) := by
  refine ⟨?_, rfl, ?_, ?_, ?_, ?_, ?_⟩ <;>
    simp [SessionContextBase.Initialize, committedIds, packsCommittedIds, openBuckets]

/-- The dispatch phase of `Finalize` moves every committed object of the
current pack into the dispatched packs: afterwards the dispatched packs
hold exactly the session's committed objects. -/
lemma finalizeDispatch_ids (s : SessionState) :
    dispatchedCommittedIds (SessionContextBase.FinalizeDispatchPhase s) =
      committedIds s := by
  unfold SessionContextBase.FinalizeDispatchPhase dispatchedCommittedIds committedIds
  cases hp : s.current_pack_ with
  | none => simp
  | some p =>
    show packsCommittedIds
        (if 0 < p.GetNoObjects then
          { SessionContextBase.Dispatch s with current_pack_ := none }
         else s).dispatched_packs =
      packsCommittedIds s.dispatched_packs ++ p.committed.map CommittedObject.bid
    by_cases h0 : 0 < p.GetNoObjects
    · rw [if_pos h0]
      show packsCommittedIds (SessionContextBase.Dispatch s).dispatched_packs = _
      unfold SessionContextBase.Dispatch
      simp only [hp]
      show packsCommittedIds (s.dispatched_packs ++ [p]) = _
      rw [packsCommittedIds_append]
      simp [packsCommittedIds]
    · rw [if_neg h0]
      unfold ObjectPack.GetNoObjects at h0
      have hc : p.committed = [] := by
        cases hcc : p.committed with
        | nil => rfl
        | cons a l => rw [hcc] at h0; simp at h0
      rw [hc]
      simp

/-- Writing through the handle of any open bucket of the current pack
succeeds and appends the new bytes to that bucket's contents. -/
lemma write_open_bucket (s : SessionState) (p : ObjectPack) (ob : OpenBucket)
    (bytes : String) (hp : s.current_pack_ = some p) (hm : ob ∈ p.open_buckets) :
    ∃ s3, SessionContextBase.WriteToBucket s ob.bid bytes = some s3 ∧
      OpenBucket.mk ob.bid (ob.contents ++ bytes) ∈ openBuckets s3 := by
  unfold SessionContextBase.WriteToBucket
  simp only [hp]
  unfold ObjectPack.WriteBucket
  have hany : p.open_buckets.any (fun b => b.bid == ob.bid) = true := by
    rw [List.any_eq_true]
    exact ⟨ob, hm, by simp⟩
  rw [if_pos hany]
  refine ⟨_, rfl, ?_⟩
  show OpenBucket.mk ob.bid (ob.contents ++ bytes) ∈
    p.open_buckets.map (fun b =>
      if b.bid == ob.bid then { b with contents := b.contents ++ bytes } else b)
  have himg : (if ob.bid == ob.bid then
      { ob with contents := ob.contents ++ bytes } else ob) =
      OpenBucket.mk ob.bid (ob.contents ++ bytes) := by simp
  rw [← himg]
  exact List.mem_map_of_mem _ hm

/-- Appending a fresh element to a duplicate-free list keeps it
duplicate-free. -/
lemma nodup_concat {α : Type} (l : List α) (a : α) (h : l.Nodup) (ha : a ∉ l) :
    (l ++ [a]).Nodup := by
  rw [List.nodup_append]
  refine ⟨h, List.nodup_singleton a, ?_⟩
  intro x hx hxa
  rw [List.mem_singleton] at hxa
  exact ha (hxa ▸ hx)

/-- The open buckets of a session whose current pack is known. -/
lemma openBuckets_eq (s : SessionState) (pack : ObjectPack)
    (hp : s.current_pack_ = some pack) : openBuckets s = pack.open_buckets := by
  unfold openBuckets
  simp only [hp]

/-- The committed ids of a session whose current pack is known. -/
lemma committedIds_eq (s : SessionState) (pack : ObjectPack)
    (hp : s.current_pack_ = some pack) :
    committedIds s = packsCommittedIds s.dispatched_packs ++
      pack.committed.map CommittedObject.bid := by
  unfold committedIds
  simp only [hp]

/-- Soundness of the session-level commit (any fuel, no forced flush):
from an invariant state, a successful commit of handle `bid` adds `bid`
exactly once at the end of the session's committed ids, removes exactly
that handle from the open buckets and the active set — every other open
bucket survives with identical contents, across rotation included — and
preserves the invariant. -/
lemma commitBucket_sound (fuel : Nat) :
    ∀ (s : SessionState) (ty hsh bid : Nat) (name : String) (s2 : SessionState),
      Inv s →
      SessionContextBase.CommitBucket fuel s ty hsh bid name false = some (true, s2) →
      Inv s2 ∧
      committedIds s2 = committedIds s ++ [bid] ∧
      openBuckets s2 = (openBuckets s).filter (fun c => c.bid != bid) ∧
      s2.active_handles_ = s.active_handles_.filter (fun x => x != bid) ∧
      s2.next_bid = s.next_bid := by
  induction fuel with
  | zero =>
    intro s ty hsh bid name s2 _ h
    simp [SessionContextBase.CommitBucket] at h
  | succ n ih =>
    intro s ty hsh bid name s2 hInv h
    obtain ⟨hI1, hI2, hI3, hI4, hI5, hI6, hI7⟩ := hInv
    unfold SessionContextBase.CommitBucket at h
    cases hp : s.current_pack_ with
    | none =>
      rw [hp] at h
      obtain ⟨hb, _⟩ := Prod.mk.injEq _ _ _ _ ▸ Option.some.inj h
      simp at hb
    | some pack =>
      rw [hp] at h
      have hopen : openBuckets s = pack.open_buckets := openBuckets_eq s pack hp
      have hact : s.active_handles_ = pack.open_buckets.map OpenBucket.bid := by
        rw [hI2, hopen]
      have hnd : (pack.open_buckets.map OpenBucket.bid).Nodup := hact ▸ hI3
      have hcid : committedIds s = packsCommittedIds s.dispatched_packs ++
          pack.committed.map CommittedObject.bid := committedIds_eq s pack hp
      by_cases hc : (pack.CommitBucket ty hsh bid name).1 = true
      · -- fits case: the bucket is committed into the current pack
        obtain ⟨ob, hf, hob, _, hp2⟩ := pack_commit_true pack ty hsh bid name hc
        have hbidmem : bid ∈ s.active_handles_ := by
          rw [hact, ← hob]
          exact List.mem_map_of_mem OpenBucket.bid (List.mem_of_find?_eq_some hf)
        have hbidnc : bid ∉ committedIds s := hI4 bid hbidmem
        simp only [hc, if_true, Bool.false_eq_true, if_false] at h
        obtain ⟨_, hs⟩ := Prod.mk.injEq _ _ _ _ ▸ Option.some.inj h
        rw [← hs]
        have hcur2 : ({ s with
            current_pack_ := some (pack.CommitBucket ty hsh bid name).2,
            active_handles_ := s.active_handles_.filter (fun x => x != bid),
            bytes_committed_ := s.bytes_committed_ +
              ((pack.CommitBucket ty hsh bid name).2.size - pack.size) } :
            SessionState).current_pack_ =
            some (pack.CommitBucket ty hsh bid name).2 := rfl
        have hids2 : committedIds { s with
            current_pack_ := some (pack.CommitBucket ty hsh bid name).2,
            active_handles_ := s.active_handles_.filter (fun x => x != bid),
            bytes_committed_ := s.bytes_committed_ +
              ((pack.CommitBucket ty hsh bid name).2.size - pack.size) } =
            committedIds s ++ [bid] := by
          rw [committedIds_eq _ _ hcur2, hp2]
          show packsCommittedIds s.dispatched_packs ++
            (pack.committed ++
              [CommittedObject.mk bid ty hsh name ob.contents]).map CommittedObject.bid = _
          rw [List.map_append, hcid, List.append_assoc]
          rfl
        have hopen2 : openBuckets { s with
            current_pack_ := some (pack.CommitBucket ty hsh bid name).2,
            active_handles_ := s.active_handles_.filter (fun x => x != bid),
            bytes_committed_ := s.bytes_committed_ +
              ((pack.CommitBucket ty hsh bid name).2.size - pack.size) } =
            (openBuckets s).filter (fun c => c.bid != bid) := by
          rw [openBuckets_eq _ _ hcur2, hp2, hopen]
        refine ⟨?_, hids2, hopen2, rfl, rfl⟩
        unfold Inv
        refine ⟨?_, ?_, ?_, ?_, ?_, ?_, ?_⟩
        · rw [hids2]
          exact nodup_concat _ bid hI1 hbidnc
        · show s.active_handles_.filter (fun x => x != bid) = _
          rw [hopen2, hopen, map_bid_filter, hI2, hopen]
        · exact List.Nodup.filter _ hI3
        · intro b hb
          rw [List.mem_filter] at hb
          rw [hids2, List.mem_append, List.mem_singleton]
          rintro (hbc | hbeq)
          · exact hI4 b hb.1 hbc
          · rw [bne_iff_ne] at hb
            exact hb.2 hbeq
        · intro b hb
          rw [List.mem_filter] at hb
          exact hI5 b hb.1
        · intro b hb
          rw [hids2, List.mem_append, List.mem_singleton] at hb
          cases hb with
          | inl hbc => exact hI6 b hbc
          | inr hbeq => exact hbeq ▸ hI5 bid hbidmem
        · exact hI7
      · -- rotation case: dispatch the full pack, retry in a fresh pack
        rw [Bool.not_eq_true] at hc
        have hpackeq := pack_commit_false pack ty hsh bid name hc
        simp only [hc, Bool.false_eq_true, if_false] at h
        have hfold := transfer_fold pack.open_buckets
          ((pack.CommitBucket ty hsh bid name).2) (ObjectPack.mk s.max_pack_size_ [] [])
          (by rw [hpackeq]) hnd
        have hfold2 : List.foldl (fun pr hd => pr.1.TransferBucket hd pr.2)
            ((pack.CommitBucket ty hsh bid name).2, ObjectPack.mk s.max_pack_size_ [] [])
            s.active_handles_ =
            ({ (pack.CommitBucket ty hsh bid name).2 with open_buckets := [] },
             ObjectPack.mk s.max_pack_size_ [] pack.open_buckets) := by
          rw [hact]
          exact hfold
        rw [hfold2] at h
        simp only [hpackeq] at h
        -- the rotated state
        split at h
        next heq => simp at h
        next rs heq =>
          obtain ⟨_, hs⟩ := Prod.mk.injEq _ _ _ _ ▸ Option.some.inj h
          have hr1 : rs.1 = true := by
            have hiso : rs.1 = ({ SessionContextBase.Dispatch
                { s with current_pack_ := some { pack with open_buckets := [] } } with
                current_pack_ := some (ObjectPack.mk s.max_pack_size_ [] pack.open_buckets) } :
                SessionState).current_pack_.isSome :=
              commitBucket_result_isSome n _ ty hsh bid name false rs.1 rs.2 heq
            rw [hiso]
            rfl
          have hrec2 : SessionContextBase.CommitBucket n
              { SessionContextBase.Dispatch
                  { s with current_pack_ := some { pack with open_buckets := [] } } with
                current_pack_ := some (ObjectPack.mk s.max_pack_size_ [] pack.open_buckets) }
              ty hsh bid name false = some (true, rs.2) := by
            rw [← hr1]
            exact heq
          -- identification of the rotated state's observables
          have hcur3 : ({ SessionContextBase.Dispatch
              { s with current_pack_ := some { pack with open_buckets := [] } } with
              current_pack_ := some (ObjectPack.mk s.max_pack_size_ [] pack.open_buckets) } :
              SessionState).current_pack_ =
              some (ObjectPack.mk s.max_pack_size_ [] pack.open_buckets) := rfl
          have hdisp3 : ({ SessionContextBase.Dispatch
              { s with current_pack_ := some { pack with open_buckets := [] } } with
              current_pack_ := some (ObjectPack.mk s.max_pack_size_ [] pack.open_buckets) } :
              SessionState).dispatched_packs =
              s.dispatched_packs ++ [{ pack with open_buckets := [] }] := rfl
          have hids3 : committedIds { SessionContextBase.Dispatch
              { s with current_pack_ := some { pack with open_buckets := [] } } with
              current_pack_ := some (ObjectPack.mk s.max_pack_size_ [] pack.open_buckets) } =
              committedIds s := by
            rw [committedIds_eq _ _ hcur3, hdisp3, packsCommittedIds_append, hcid]
            show _ ++ (pack.committed.map CommittedObject.bid ++ []) ++ [] = _
            simp
          have hopen3 : openBuckets { SessionContextBase.Dispatch
              { s with current_pack_ := some { pack with open_buckets := [] } } with
              current_pack_ := some (ObjectPack.mk s.max_pack_size_ [] pack.open_buckets) } =
              pack.open_buckets := by
            rw [openBuckets_eq _ _ hcur3]
          have hact3 : ({ SessionContextBase.Dispatch
              { s with current_pack_ := some { pack with open_buckets := [] } } with
              current_pack_ := some (ObjectPack.mk s.max_pack_size_ [] pack.open_buckets) } :
              SessionState).active_handles_ = s.active_handles_ := rfl
          have hnb3 : ({ SessionContextBase.Dispatch
              { s with current_pack_ := some { pack with open_buckets := [] } } with
              current_pack_ := some (ObjectPack.mk s.max_pack_size_ [] pack.open_buckets) } :
              SessionState).next_bid = s.next_bid := rfl
          have hInv3 : Inv { SessionContextBase.Dispatch
              { s with current_pack_ := some { pack with open_buckets := [] } } with
              current_pack_ := some (ObjectPack.mk s.max_pack_size_ [] pack.open_buckets) } := by
            unfold Inv
            refine ⟨?_, ?_, ?_, ?_, ?_, ?_, ?_⟩
            · rw [hids3]; exact hI1
            · rw [hact3, hopen3, hact]
            · rw [hact3]; exact hI3
            · intro b hb
              rw [hact3] at hb
              rw [hids3]
              exact hI4 b hb
            · intro b hb
              rw [hact3] at hb
              rw [hnb3]
              exact hI5 b hb
            · intro b hb
              rw [hids3] at hb
              rw [hnb3]
              exact hI6 b hb
            · intro q hq
              rw [hdisp3, List.mem_append, List.mem_singleton] at hq
              cases hq with
              | inl hqd => exact hI7 q hqd
              | inr hqe => rw [hqe]
          obtain ⟨ih1, ih2, ih3, ih4, ih5⟩ := ih _ ty hsh bid name rs.2 hInv3 hrec2
          rw [← hs]
          refine ⟨ih1, ?_, ?_, ?_, ?_⟩
          · rw [ih2, hids3]
          · rw [ih3, hopen3, hopen]
          · rw [ih4, hact3]
          · rw [ih5, hnb3]

/-- `NewBucket` preserves the session invariant: the fresh handle is added
to the active set and opened in the current pack. -/
lemma newBucket_inv (s : SessionState) (hInv : Inv s) :
    Inv (SessionContextBase.NewBucket s).2 := by
  obtain ⟨hI1, hI2, hI3, hI4, hI5, hI6, hI7⟩ := hInv
  have hae2 : (SessionContextBase.NewBucket s).2.active_handles_ =
      s.active_handles_ ++ [s.next_bid] := rfl
  have hnb2 : (SessionContextBase.NewBucket s).2.next_bid = s.next_bid + 1 := rfl
  have hdp2 : (SessionContextBase.NewBucket s).2.dispatched_packs =
      s.dispatched_packs := rfl
  have hnotmem : s.next_bid ∉ s.active_handles_ := fun hmem =>
    Nat.lt_irrefl _ (hI5 _ hmem)
  have hnotc : s.next_bid ∉ committedIds s := fun hmem =>
    Nat.lt_irrefl _ (hI6 _ hmem)
  cases hp : s.current_pack_ with
  | none =>
    have hob : openBuckets s = [] := by unfold openBuckets; simp only [hp]
    have hae : s.active_handles_ = [] := by rw [hI2, hob]; rfl
    have hc2 : (SessionContextBase.NewBucket s).2.current_pack_ =
        some ((ObjectPack.mk s.max_pack_size_ [] []).NewBucket s.next_bid) := by
      unfold SessionContextBase.NewBucket
      rw [hp]
      rfl
    have hopen2 : openBuckets (SessionContextBase.NewBucket s).2 =
        [OpenBucket.mk s.next_bid ""] := by
      rw [openBuckets_eq _ _ hc2]
      rfl
    have hids2 : committedIds (SessionContextBase.NewBucket s).2 = committedIds s := by
      rw [committedIds_eq _ _ hc2]
      unfold committedIds
      rw [hdp2]
      simp only [hp]
      rfl
    refine ⟨?_, ?_, ?_, ?_, ?_, ?_, ?_⟩
    · rw [hids2]; exact hI1
    · rw [hae2, hopen2, hae]; rfl
    · rw [hae2, hae]; exact List.nodup_singleton _
    · intro b hb
      rw [hae2, hae, List.nil_append, List.mem_singleton] at hb
      rw [hids2, hb]
      exact hnotc
    · intro b hb
      rw [hae2, hae, List.nil_append, List.mem_singleton] at hb
      rw [hnb2, hb]
      exact Nat.lt_succ_self _
    · intro b hb
      rw [hids2] at hb
      rw [hnb2]
      exact Nat.lt_succ_of_lt (hI6 b hb)
    · intro q hq
      rw [hdp2] at hq
      exact hI7 q hq
  | some p =>
    have hob : openBuckets s = p.open_buckets := openBuckets_eq s p hp
    have hc2 : (SessionContextBase.NewBucket s).2.current_pack_ =
        some (p.NewBucket s.next_bid) := by
      unfold SessionContextBase.NewBucket
      rw [hp]
      rfl
    have hopen2 : openBuckets (SessionContextBase.NewBucket s).2 =
        p.open_buckets ++ [OpenBucket.mk s.next_bid ""] := by
      rw [openBuckets_eq _ _ hc2]
      rfl
    have hids2 : committedIds (SessionContextBase.NewBucket s).2 = committedIds s := by
      rw [committedIds_eq _ _ hc2]
      unfold committedIds
      rw [hdp2]
      simp only [hp]
      rfl
    refine ⟨?_, ?_, ?_, ?_, ?_, ?_, ?_⟩
    · rw [hids2]; exact hI1
    · rw [hae2, hopen2, List.map_append, hI2, hob]
      rfl
    · rw [hae2]
      exact nodup_concat _ _ hI3 hnotmem
    · intro b hb
      rw [hae2, List.mem_append, List.mem_singleton] at hb
      rw [hids2]
      cases hb with
      | inl hbm => exact hI4 b hbm
      | inr hbe => exact hbe ▸ hnotc
    · intro b hb
      rw [hae2, List.mem_append, List.mem_singleton] at hb
      rw [hnb2]
      cases hb with
      | inl hbm => exact Nat.lt_succ_of_lt (hI5 b hbm)
      | inr hbe => exact hbe ▸ Nat.lt_succ_self _
    · intro b hb
      rw [hids2] at hb
      rw [hnb2]
      exact Nat.lt_succ_of_lt (hI6 b hb)
    · intro q hq
      rw [hdp2] at hq
      exact hI7 q hq

/-- A successful producer write preserves the session invariant: it only
changes the contents of one open bucket. -/
lemma write_inv (s : SessionState) (bid : Nat) (bytes : String)
    (s2 : SessionState) (hInv : Inv s)
    (h : SessionContextBase.WriteToBucket s bid bytes = some s2) : Inv s2 := by
  obtain ⟨hI1, hI2, hI3, hI4, hI5, hI6, hI7⟩ := hInv
  unfold SessionContextBase.WriteToBucket at h
  split at h
  · simp at h
  next p heqp =>
    split at h
    · simp at h
    next p2 heqw =>
      unfold ObjectPack.WriteBucket at heqw
      split at heqw
      swap
      · simp at heqw
      have hp2 := Option.some.inj heqw
      rw [← Option.some.inj h]
      have hob : openBuckets s = p.open_buckets := openBuckets_eq s p heqp
      have hc2 : ({ s with current_pack_ := some p2 } :
          SessionState).current_pack_ = some p2 := rfl
      have hopen2 : openBuckets { s with current_pack_ := some p2 } =
          p.open_buckets.map (fun b => if b.bid == bid then
            { b with contents := b.contents ++ bytes } else b) := by
        rw [openBuckets_eq _ _ hc2, ← hp2]
      have hids2 : committedIds { s with current_pack_ := some p2 } =
          committedIds s := by
        rw [committedIds_eq _ _ hc2, committedIds_eq s p heqp, ← hp2]
      refine ⟨?_, ?_, ?_, ?_, ?_, ?_, ?_⟩
      · rw [hids2]; exact hI1
      · show s.active_handles_ = _
        rw [hopen2, map_bid_write, hI2, hob]
      · exact hI3
      · intro b hb
        rw [hids2]
        exact hI4 b hb
      · intro b hb
        exact hI5 b hb
      · intro b hb
        rw [hids2] at hb
        exact hI6 b hb
      · exact hI7

/-- One producer step preserves the session invariant. -/
lemma runOp_inv (s : SessionState) (op : SessionOp) (s2 : SessionState)
    (hInv : Inv s) (h : runOp s op = some s2) : Inv s2 := by
  cases op with
  | newBucket =>
    unfold runOp at h
    rw [← Option.some.inj h]
    exact newBucket_inv s hInv
  | writeOp bid bytes =>
    unfold runOp at h
    exact write_inv s bid bytes s2 hInv h
  | commitOp ty hsh bid name =>
    unfold runOp at h
    simp only [] at h
    cases hcb : SessionContextBase.CommitBucket 2 s ty hsh bid name false with
    | none =>
      rw [hcb] at h
      simp at h
    | some r =>
      rw [hcb] at h
      cases r with
      | mk b s3 =>
        cases b with
        | false => simp at h
        | true =>
          simp only [Option.some.injEq] at h
          rw [← h]
          exact (commitBucket_sound 2 s ty hsh bid name s3 hInv hcb).1

/-- Every reachable state of a producer trace satisfies the session
invariant. -/
lemma runOps_inv : ∀ (ops : List SessionOp) (s s2 : SessionState),
    Inv s → runOps ops s = some s2 → Inv s2 := by
  intro ops
  induction ops with
  | nil =>
    intro s s2 hInv h
    unfold runOps at h
    rw [← Option.some.inj h]
    exact hInv
  | cons op rest ih =>
    intro s s2 hInv h
    unfold runOps at h
    split at h
    · simp at h
    next s3 heq => exact ih s3 s2 (runOp_inv s op s3 hInv heq) h

/-- C3 (exactly-once and rotation transfer): along any producer trace
from an initialized session, every committed object's handle appears
exactly once among the packs dispatched once `Finalize` dispatches the
final pack; and any further commit — the rotation branch included —
keeps every other still-open bucket present with its partial contents
intact and writable under the same handle. -/
theorem claim3_commit_exactly_once_and_transfer_intact :
    ∀ (u t k sec : String) (dl : Bool) (mx : Nat) (ops : List SessionOp)
      (s1 : SessionState),
      runOps ops (SessionContextBase.Initialize u t k sec dl mx) = some s1 →
      ((committedIds s1).Nodup ∧
       ∀ bid ∈ committedIds s1,
         List.count bid
           (dispatchedCommittedIds (SessionContextBase.FinalizeDispatchPhase s1)) = 1) ∧
      (∀ (ty hsh bid : Nat) (name : String) (r : Bool) (s2 : SessionState),
        SessionContextBase.CommitBucket 2 s1 ty hsh bid name false = some (r, s2) →
        ∀ ob ∈ openBuckets s1, ob.bid ≠ bid →
          ob ∈ openBuckets s2 ∧
          ∀ bytes : String, ∃ s3,
            SessionContextBase.WriteToBucket s2 ob.bid bytes = some s3 ∧
            OpenBucket.mk ob.bid (ob.contents ++ bytes) ∈ openBuckets s3) := by
  intro u t k sec dl mx ops s1 hrun
  have hInv1 : Inv s1 := runOps_inv ops _ s1 (initialize_inv u t k sec dl mx) hrun
  constructor
  · refine ⟨hInv1.1, ?_⟩
    intro bid hbid
    rw [finalizeDispatch_ids s1]
    exact List.count_eq_one_of_mem hInv1.1 hbid
  · intro ty hsh bid name r s2 hcb ob hob hne
    cases hp : s1.current_pack_ with
    | none =>
      unfold openBuckets at hob
      rw [hp] at hob
      cases hob
    | some p =>
      have hr : r = true := by
        rw [commitBucket_result_isSome 2 s1 ty hsh bid name false r s2 hcb, hp]
        rfl
      rw [hr] at hcb
      obtain ⟨_, _, hopen2, _, _⟩ := commitBucket_sound 2 s1 ty hsh bid name s2 hInv1 hcb
      have hmem2 : ob ∈ openBuckets s2 := by
        rw [hopen2, List.mem_filter]
        exact ⟨hob, bne_iff_ne.mpr hne⟩
      refine ⟨hmem2, ?_⟩
      intro bytes
      cases hp2 : s2.current_pack_ with
      | none =>
        unfold openBuckets at hmem2
        rw [hp2] at hmem2
        cases hmem2
      | some p2 =>
        have hmo : ob ∈ p2.open_buckets := by
          rw [← openBuckets_eq s2 p2 hp2]
          exact hmem2
        exact write_open_bucket s2 p2 ob bytes hp2 hmo

/-- Witness for C3 at a concrete trace: open a bucket, write three bytes,
commit it. -/
theorem claim3_witness :
    ((committedIds c3s).Nodup ∧
     ∀ bid ∈ committedIds c3s,
       List.count bid
         (dispatchedCommittedIds (SessionContextBase.FinalizeDispatchPhase c3s)) = 1) ∧
    (∀ (ty hsh bid : Nat) (name : String) (r : Bool) (s2 : SessionState),
      SessionContextBase.CommitBucket 2 c3s ty hsh bid name false = some (r, s2) →
      ∀ ob ∈ openBuckets c3s, ob.bid ≠ bid →
        ob ∈ openBuckets s2 ∧
        ∀ bytes : String, ∃ s3,
          SessionContextBase.WriteToBucket s2 ob.bid bytes = some s3 ∧
          OpenBucket.mk ob.bid (ob.contents ++ bytes) ∈ openBuckets s3) :=
  claim3_commit_exactly_once_and_transfer_intact "http://gw" "tok" "key" "sec" true 100
    c3ops c3s (by decide)

/-- C4 (counterexample to the claim as stated): with ceiling 2 and an
open bucket holding three bytes, the first commit is rejected (pack
full), rotation allocates a fresh pack — and the commit re-issued against
that freshly allocated pack is rejected again, since the bucket alone
exceeds the ceiling; the session-level commit then recurses past any
bound (here: still unfinished at recursion depth 5, where a single-level
retry needs depth 2). -/
theorem claim4_counterexample :
    ((ObjectPack.mk 2 [] [OpenBucket.mk 0 "aaa"]).CommitBucket 0 0 0 "n").1 = false ∧
    SessionContextBase.CommitBucket 5 cOversize 0 0 0 "n" false = none := by
  refine ⟨by decide, by decide⟩

/-- C4 (amended): when the bucket being committed is no larger than the
pack size ceiling, the commit re-issued against the freshly allocated
pack (holding the transferred open buckets) succeeds, and the
session-level commit completes within fuel 2 — a bounded, single-level
retry. -/
theorem claim4_retry_single_level_for_fitting_buckets :
    ∀ (s : SessionState) (p : ObjectPack) (ob : OpenBucket) (ty hsh : Nat)
      (name : String),
      Inv s → s.current_pack_ = some p → ob ∈ p.open_buckets →
      ob.contents.length ≤ s.max_pack_size_ →
      ((ObjectPack.mk s.max_pack_size_ [] p.open_buckets).CommitBucket
          ty hsh ob.bid name).1 = true ∧
      ∃ s2, SessionContextBase.CommitBucket 2 s ty hsh ob.bid name false =
        some (true, s2) := by
  intro s p ob ty hsh name hInv hp hm hsz
  obtain ⟨hI1, hI2, hI3, hI4, hI5, hI6, hI7⟩ := hInv
  have hob : openBuckets s = p.open_buckets := openBuckets_eq s p hp
  have hact : s.active_handles_ = p.open_buckets.map OpenBucket.bid := by
    rw [hI2, hob]
  have hnd : (p.open_buckets.map OpenBucket.bid).Nodup := hact ▸ hI3
  have hfind := find?_bid_of_mem p.open_buckets ob hnd hm
  have hsize0 : (ObjectPack.mk s.max_pack_size_ [] p.open_buckets).size = 0 := rfl
  have hfit : ((ObjectPack.mk s.max_pack_size_ [] p.open_buckets).CommitBucket
      ty hsh ob.bid name).1 = true := by
    unfold ObjectPack.CommitBucket
    simp only [hfind, hsize0, Nat.zero_add]
    rw [if_neg (Nat.not_lt.mpr hsz)]
  refine ⟨hfit, ?_⟩
  by_cases hc : (p.CommitBucket ty hsh ob.bid name).1 = true
  · apply Exists.intro
    unfold SessionContextBase.CommitBucket
    simp only [hp, hc, if_true, Bool.false_eq_true, if_false]
    rfl
  · rw [Bool.not_eq_true] at hc
    have hpackeq := pack_commit_false p ty hsh ob.bid name hc
    have hfold := transfer_fold p.open_buckets ((p.CommitBucket ty hsh ob.bid name).2)
      (ObjectPack.mk s.max_pack_size_ [] []) (by rw [hpackeq]) hnd
    have hfold2 : List.foldl (fun pr hd => pr.1.TransferBucket hd pr.2)
        ((p.CommitBucket ty hsh ob.bid name).2, ObjectPack.mk s.max_pack_size_ [] [])
        s.active_handles_ =
        ({ (p.CommitBucket ty hsh ob.bid name).2 with open_buckets := [] },
         ObjectPack.mk s.max_pack_size_ [] p.open_buckets) := by
      rw [hact]
      exact hfold
    refine ⟨{ s with
      current_pack_ := some ((ObjectPack.mk s.max_pack_size_ []
        p.open_buckets).CommitBucket ty hsh ob.bid name).2,
      active_handles_ := s.active_handles_.filter (fun x => x != ob.bid),
      bytes_committed_ := s.bytes_committed_ +
        (((ObjectPack.mk s.max_pack_size_ []
            p.open_buckets).CommitBucket ty hsh ob.bid name).2.size -
          (ObjectPack.mk s.max_pack_size_ [] p.open_buckets).size),
      objects_dispatched_ := s.objects_dispatched_ + 1,
      bytes_dispatched_ := s.bytes_dispatched_ +
        ObjectPack.size { p with open_buckets := [] },
      dispatched_packs := s.dispatched_packs ++ [{ p with open_buckets := [] }] }, ?_⟩
    unfold SessionContextBase.CommitBucket
    simp only [hp, hc, Bool.false_eq_true, if_false]
    rw [hfold2]
    simp only [hpackeq]
    unfold SessionContextBase.CommitBucket
    simp only [hfit, if_true, Bool.false_eq_true, if_false]
    rfl

/-- Witness for the amended C4: committing the two-byte bucket of
`cWrite` (ceiling 100) succeeds within the single-level retry. -/
theorem claim4_witness :
    ((ObjectPack.mk cWrite.max_pack_size_ []
        (ObjectPack.mk 100 [] [OpenBucket.mk 0 "ab"]).open_buckets).CommitBucket
        0 7 (OpenBucket.mk 0 "ab").bid "n").1 = true ∧
    ∃ s2, SessionContextBase.CommitBucket 2 cWrite 0 7 (OpenBucket.mk 0 "ab").bid "n" false =
      some (true, s2) :=
  claim4_retry_single_level_for_fitting_buckets cWrite
    (ObjectPack.mk 100 [] [OpenBucket.mk 0 "ab"]) (OpenBucket.mk 0 "ab") 0 7 "n"
    (by decide) (by decide) (by decide) (by decide)

end Cvmfs
